import Mathlib

/-!
Verification of the FTMap consensus-clustering and feature-scoring pipeline.

Shallow embedding of the Python sources:
  * `ftmap_enhanced_modular/modules/clustering_analysis.py`
  * `ftmap_enhanced_modular/modules/feature_extraction.py`
  * `ftmap_enhanced_modular/modules/config.py`
  * `ftmap_enhanced_final/src/ftmap_enhanced_algorithm.py`

Python floats are modelled as rationals.  A float division whose
denominator can be zero in the source (producing IEEE NaN or Inf) is
modelled with an `Option` result, `none` standing for a NaN/Inf value;
divisions that sit behind an explicit positivity guard in the source are
modelled with plain rational division.  Calls into numerical libraries
(sklearn `fit_predict`, `np.sqrt`, `np.linalg.eigvals`, `scipy.ConvexHull`)
are modelled as oracle parameters: the surrounding repository code is
embedded faithfully and the claims proved hold for every oracle value,
except where the library's documented contract itself decides a claim
(the fixed-k agglomerative minimum-sample check), which is embedded
explicitly.
-/

namespace FTMap

/-- One docking pose, as consumed by the clustering and feature modules:
probe identity, 3D coordinate, binding affinity and the two RMSD bounds. -/
structure Pose where
  probe : String
  x : ℚ
  y : ℚ
  z : ℚ
  affinity : ℚ
  rmsdLb : ℚ
  rmsdUb : ℚ
deriving DecidableEq, Repr

/-! ### Ranker category assignment
From `ftmap_enhanced_algorithm.py`, `_calculate_feature_rankings`
(lines 546-549).  The source sets the whole column to `'Low'`, then
assigns `'High'` to rows with `druggability_index >= 0.7`, then assigns
`'Medium'` to rows with `druggability_index >= 0.5`.  The assignments are
sequential dataframe writes, so for a given row the LAST matching
assignment wins. -/

/-- Category label the code computes for one cluster from its
druggability index: successive overwrites `'Low'`, then `'High'` for
values at least 0.7, then `'Medium'` for values at least 0.5. -/
def clusterCategory (druggability : ℚ) : String :=
  let cat := "Low"
  let cat := if 7/10 ≤ druggability then "High" else cat
  let cat := if 1/2 ≤ druggability then "Medium" else cat
  cat

/-! ### Weighted consensus matrix
From `clustering_analysis.py`, `_weighted_consensus_clustering`
(lines 199-231).  Label sets are integer label vectors, `-1` the noise
sentinel.  The raw matrix entry (i, j), for i different from j, is the
sum of the weights of the algorithms in which i and j carry the same
non-noise label; the diagonal is never written and stays 0.  The matrix
is then divided elementwise by the sum of the weights (an IEEE division:
if the weight sum is 0 the entries become NaN, modelled as `none`). -/

/-- Whether poses `i` and `j` share a non-noise label in label set `L`
(`labels[i] == labels[j] and labels[i] != -1` in the source). -/
def sharesLabel (L : List ℤ) (i j : ℕ) : Bool :=
  L.getD i (-1) == L.getD j (-1) && L.getD i (-1) != -1

/-- Raw (unnormalized) consensus entry (i, j): weighted co-association
count over the three label sets; the diagonal stays 0. -/
def rawConsensus (L₁ L₂ L₃ : List ℤ) (w₁ w₂ w₃ : ℚ) (i j : ℕ) : ℚ :=
  if i = j then 0
  else (if sharesLabel L₁ i j then w₁ else 0)
     + (if sharesLabel L₂ i j then w₂ else 0)
     + (if sharesLabel L₃ i j then w₃ else 0)

/-- Normalized consensus entry (i, j): the raw entry divided by the sum
of the weights.  `none` models the NaN produced by the source's
`consensus_matrix /= sum(weights)` when the weight sum is zero. -/
def consensusEntry (L₁ L₂ L₃ : List ℤ) (w₁ w₂ w₃ : ℚ) (i j : ℕ) : Option ℚ :=
  if w₁ + w₂ + w₃ = 0 then none
  else some (rawConsensus L₁ L₂ L₃ w₁ w₂ w₃ i j / (w₁ + w₂ + w₃))

/-- Thresholded adjacency used for the final grouping:
`(consensus_matrix >= threshold).astype(int)`.  A NaN entry compares
false against the threshold, exactly as in IEEE arithmetic. -/
def consensusAdj (L₁ L₂ L₃ : List ℤ) (w₁ w₂ w₃ τ : ℚ) (i j : ℕ) : Bool :=
  match consensusEntry L₁ L₂ L₃ w₁ w₂ w₃ i j with
  | some q => τ ≤ q
  | none => false

/-- Distance fed to the final agglomerative step:
`distance_matrix = 1 - consensus_matrix` after thresholding, so each
off-diagonal entry is 0 (adjacent) or 1 (non-adjacent). -/
def consensusDist (L₁ L₂ L₃ : List ℤ) (w₁ w₂ w₃ τ : ℚ) (i j : ℕ) : ℚ :=
  1 - (if consensusAdj L₁ L₂ L₃ w₁ w₂ w₃ τ i j then 1 else 0)

/-! ### Agglomerative merging
The final grouping step of `_weighted_consensus_clustering` is sklearn's
`AgglomerativeClustering(n_clusters=None, distance_threshold=0.5,
linkage='average', metric='precomputed')`; the small-input branch of the
final algorithm's `_ensemble_clustering` is scipy's
`linkage(method='average')` followed by `fcluster(t=0.7,
criterion='distance')`.  Both are average-linkage agglomerative merging
over a precomputed distance matrix; they differ only in the cut rule
(merge while the distance is strictly below 0.5, respectively at most
0.7).  Average linkage is monotone, so greedily merging the closest pair
while the cut rule allows it yields exactly the cut tree.  Ties between
equally close pairs are resolved to the lexicographically first pair of
positions in the working list (the libraries fix an equally arbitrary
internal order; the claims settled below do not depend on the choice,
as noted at each use). -/

/-- Average-linkage distance between two clusters of point indices,
for a base distance `D`. -/
def avgDist (D : ℕ → ℕ → ℚ) (A B : List ℕ) : ℚ :=
  (A.map (fun a => (B.map (fun b => D a b)).sum)).sum / ((A.length : ℚ) * B.length)

/-- Ordered index pairs (i, j) with i < j < n, in lexicographic order. -/
def pairList (n : ℕ) : List (ℕ × ℕ) :=
  (List.range n).flatMap (fun i => ((List.range n).filter (fun j => i < j)).map (fun j => (i, j)))

/-- Position pair of the closest two clusters in the working list,
together with their distance; the lexicographically first pair is kept
among ties.  `none` when fewer than two clusters remain. -/
def bestPair (D : ℕ → ℕ → ℚ) (cs : List (List ℕ)) : Option ((ℕ × ℕ) × ℚ) :=
  (pairList cs.length).foldl
    (fun acc p =>
      let d := avgDist D (cs.getD p.1 []) (cs.getD p.2 [])
      match acc with
      | none => some (p, d)
      | some (_, dq) => if d < dq then some (p, d) else acc)
    none

/-- Replace the cluster at position `i` by the merge of the clusters at
positions `i` and `j`, and drop position `j` (callers have `i < j`). -/
def mergeAt (cs : List (List ℕ)) (i j : ℕ) : List (List ℕ) :=
  (cs.set i (cs.getD i [] ++ cs.getD j [])).eraseIdx j

/-- Greedy agglomerative loop: merge the closest pair while the cut rule
`keepMerging` accepts its distance.  The fuel bounds the number of
merges; starting it at the cluster count makes it never bind. -/
def aggloLoop (keepMerging : ℚ → Bool) (D : ℕ → ℕ → ℚ) :
    ℕ → List (List ℕ) → List (List ℕ)
  | 0, cs => cs
  | fuel + 1, cs =>
    match bestPair D cs with
    | none => cs
    | some (p, d) =>
      if keepMerging d then aggloLoop keepMerging D fuel (mergeAt cs p.1 p.2) else cs

/-- Agglomerative clustering of the points `0, …, n-1` from singletons. -/
def agglomerate (keepMerging : ℚ → Bool) (D : ℕ → ℕ → ℚ) (n : ℕ) : List (List ℕ) :=
  aggloLoop keepMerging D n ((List.range n).map (fun i => [i]))

/-- Integer label of each point `0, …, n-1`: the position of the cluster
containing it (a permutation of the library's arbitrary label values,
which no consumer depends on beyond equality and the `-1` sentinel);
`-1` for a point in no cluster. -/
def labelsOfClusters (cs : List (List ℕ)) (n : ℕ) : List ℤ :=
  (List.range n).map (fun p =>
    match cs.findIdx? (fun c => c.contains p) with
    | some k => (k : ℤ)
    | none => -1)

/-- Full `_weighted_consensus_clustering`: build the weighted consensus
matrix from the three label sets, normalize by the weight sum, threshold
at `τ`, convert to 0/1 distances, and agglomerate with average linkage
while the merge distance is strictly below 0.5 (sklearn applies exactly
the merges whose linkage distance is below `distance_threshold`). -/
def weightedConsensusClustering (w₁ w₂ w₃ τ : ℚ) (L₁ L₂ L₃ : List ℤ) : List ℤ :=
  let n := L₁.length
  labelsOfClusters
    (agglomerate (fun d => d < 1/2) (consensusDist L₁ L₂ L₃ w₁ w₂ w₃ τ) n) n

/-! ### Feature extraction
From `ftmap_enhanced_modular/modules/feature_extraction.py`.  The square
root inside `np.std` / `np.linalg.norm`, the eigenvalues of
`np.linalg.eigvals` on the 3×3 covariance matrix, and scipy's
`ConvexHull` (volume, area; `none` models its exception path, caught by
the source's bare `except`) are oracles; every claim below holds for all
oracle values.  `mean?` models `np.mean`: a mean of an empty list is an
IEEE 0/0, i.e. NaN, modelled `none`; `np.min`/`np.max` of an empty list
raise, also `none` here. -/

/-- Chemical descriptor record of one probe (`ProbeProperties`). -/
structure ProbeProperties where
  molecularWeight : ℚ
  logp : ℚ
  hbd : ℕ
  hba : ℕ
  psa : ℚ
  dipole : ℚ
  aromatic : Bool
  polar : Bool
  charged : Bool
deriving DecidableEq, Repr

/-- Static descriptor table of the 18 probes
(`_initialize_enhanced_probe_properties`). -/
def probeTable : List (String × ProbeProperties) :=
  [("ethanol", ⟨4607/100, -31/100, 1, 1, 2023/100, 169/100, false, true, false⟩),
   ("isopropanol", ⟨6010/100, 5/100, 1, 1, 2023/100, 166/100, false, true, false⟩),
   ("acetone", ⟨5808/100, -24/100, 0, 1, 1707/100, 288/100, false, true, false⟩),
   ("benzene", ⟨7811/100, 213/100, 0, 0, 0, 0, true, false, false⟩),
   ("phenol", ⟨9411/100, 146/100, 1, 1, 2023/100, 145/100, true, true, false⟩),
   ("imidazole", ⟨6808/100, -76/100, 1, 2, 2868/100, 361/100, true, true, true⟩),
   ("indole", ⟨11715/100, 214/100, 1, 1, 1579/100, 211/100, true, true, false⟩),
   ("urea", ⟨6006/100, -211/100, 2, 1, 6911/100, 456/100, false, true, false⟩),
   ("acetamide", ⟨5907/100, -126/100, 1, 1, 4309/100, 376/100, false, true, false⟩),
   ("water", ⟨1802/100, -138/100, 2, 1, 0, 185/100, false, true, false⟩),
   ("methylamine", ⟨3106/100, -57/100, 2, 1, 2602/100, 131/100, false, true, true⟩),
   ("cyclohexane", ⟨8416/100, 344/100, 0, 0, 0, 0, false, false, false⟩),
   ("ethane", ⟨3007/100, 181/100, 0, 0, 0, 0, false, false, false⟩),
   ("acetaldehyde", ⟨4405/100, 45/100, 0, 1, 1707/100, 275/100, false, true, false⟩),
   ("dmf", ⟨7309/100, -101/100, 0, 1, 2031/100, 382/100, false, true, false⟩),
   ("dimethylether", ⟨4607/100, 10/100, 0, 1, 923/100, 130/100, false, true, false⟩),
   ("acetonitrile", ⟨4105/100, -34/100, 0, 1, 2379/100, 392/100, false, true, false⟩),
   ("benzaldehyde", ⟨10612/100, 148/100, 0, 1, 1707/100, 3, true, true, false⟩)]

/-- Dictionary lookup `self.probe_properties.get(probe_name)`. -/
def probeProperties (name : String) : Option ProbeProperties :=
  probeTable.lookup name

/-- Mean of a list of floats (`np.mean`); NaN (`none`) on the empty
list. -/
def mean? (l : List ℚ) : Option ℚ :=
  if l.length = 0 then none else some (l.sum / l.length)

/-- Population variance (`np.std` before its square root). -/
def var? (l : List ℚ) : Option ℚ := do
  let m ← mean? l
  mean? (l.map fun x => (x - m) ^ 2)

/-- Standard deviation through the square-root oracle. -/
def std? (sqrtO : ℚ → ℚ) (l : List ℚ) : Option ℚ :=
  (var? l).map sqrtO

/-- Euclidean norm of a 3-vector through the square-root oracle. -/
def norm3 (sqrtO : ℚ → ℚ) (v : ℚ × ℚ × ℚ) : ℚ :=
  sqrtO (v.1 ^ 2 + v.2.1 ^ 2 + v.2.2 ^ 2)

/-- The five energetic features (`_extract_energy_features`), keys in
source order. -/
def energyFeatures (sqrtO : ℚ → ℚ) (affinities : List ℚ) : Option (List (String × ℚ)) := do
  let m ← mean? affinities
  let s ← std? sqrtO affinities
  let mn ← affinities.min?
  let mx ← affinities.max?
  pure [("mean_affinity", m), ("std_affinity", s), ("min_affinity", mn),
        ("max_affinity", mx), ("energy_range", mx - mn)]

/-- Largest float of a nonempty list (`np.max`; callers guard
emptiness). -/
def listMax (l : List ℚ) : ℚ := l.foldl max (l.headD 0)

/-- Smallest float of a nonempty list (`np.min`; callers guard
emptiness). -/
def listMin (l : List ℚ) : ℚ := l.foldl min (l.headD 0)

/-- Bounding-box volume fallback (`_approximate_volume`). -/
def approxVolume (coords : List (ℚ × ℚ × ℚ)) : ℚ :=
  if coords.length < 2 then 0
  else (listMax (coords.map (·.1)) - listMin (coords.map (·.1)))
     * ((listMax (coords.map (·.2.1)) - listMin (coords.map (·.2.1)))
     * (listMax (coords.map (·.2.2)) - listMin (coords.map (·.2.2))))

/-- Bounding-box surface-area fallback (`_approximate_surface_area`). -/
def approxArea (coords : List (ℚ × ℚ × ℚ)) : ℚ :=
  if coords.length < 2 then 0
  else
    let l := listMax (coords.map (·.1)) - listMin (coords.map (·.1))
    let w := listMax (coords.map (·.2.1)) - listMin (coords.map (·.2.1))
    let h := listMax (coords.map (·.2.2)) - listMin (coords.map (·.2.2))
    2 * (l * w + l * h + w * h)

/-- Volume via the convex-hull oracle when at least 4 points, falling
back to the bounding box (`_calculate_enhanced_volume`). -/
def enhancedVolume (hullO : List (ℚ × ℚ × ℚ) → Option (ℚ × ℚ))
    (coords : List (ℚ × ℚ × ℚ)) : ℚ :=
  if coords.length < 4 then approxVolume coords
  else
    match hullO coords with
    | some va => va.1
    | none => approxVolume coords

/-- Hull surface area with the same fallback
(`_calculate_enhanced_surface_area`). -/
def enhancedArea (hullO : List (ℚ × ℚ × ℚ) → Option (ℚ × ℚ))
    (coords : List (ℚ × ℚ × ℚ)) : ℚ :=
  if coords.length < 4 then approxArea coords
  else
    match hullO coords with
    | some va => va.2
    | none => approxArea coords

/-- Symmetric 3×3 covariance matrix (6 distinct entries). -/
structure Sym3 where
  xx : ℚ
  xy : ℚ
  xz : ℚ
  yy : ℚ
  yz : ℚ
  zz : ℚ
deriving DecidableEq, Repr

/-- Sample covariance matrix of the coordinates (`np.cov`, divisor
n − 1; the caller's length guard makes the divisor positive). -/
def covMatrix (coords : List (ℚ × ℚ × ℚ)) : Option Sym3 :=
  if coords.length < 2 then none
  else do
    let nm1 : ℚ := (coords.length : ℚ) - 1
    let mx ← mean? (coords.map (·.1))
    let my ← mean? (coords.map (·.2.1))
    let mz ← mean? (coords.map (·.2.2))
    pure ⟨((coords.map fun p => (p.1 - mx) * (p.1 - mx)).sum) / nm1,
          ((coords.map fun p => (p.1 - mx) * (p.2.1 - my)).sum) / nm1,
          ((coords.map fun p => (p.1 - mx) * (p.2.2 - mz)).sum) / nm1,
          ((coords.map fun p => (p.2.1 - my) * (p.2.1 - my)).sum) / nm1,
          ((coords.map fun p => (p.2.1 - my) * (p.2.2 - mz)).sum) / nm1,
          ((coords.map fun p => (p.2.2 - mz) * (p.2.2 - mz)).sum) / nm1⟩

/-- Aspect ratio via the PCA eigenvalue oracle
(`_calculate_enhanced_aspect_ratio`): ratio of largest to smallest
covariance eigenvalue when the smallest exceeds 1e-6, else 1. -/
def aspectRatio (eigO : Sym3 → ℚ × ℚ × ℚ) (coords : List (ℚ × ℚ × ℚ)) : Option ℚ :=
  if coords.length < 2 then some 1
  else do
    let c ← covMatrix coords
    let evs := eigO c
    let lmax := max evs.1 (max evs.2.1 evs.2.2)
    let lmin := min evs.1 (min evs.2.1 evs.2.2)
    pure (if 1/1000000 < lmin then lmax / lmin else 1)

/-- Radial coefficient of variation
(`_calculate_enhanced_radial_distribution`). -/
def radialCV (sqrtO : ℚ → ℚ) (dists : List ℚ) : Option ℚ :=
  if dists.length ≤ 1 then some 0
  else do
    let m ← mean? dists
    let s ← std? sqrtO dists
    pure (if 0 < m then s / m else 0)

/-- The nine spatial features (`_extract_enhanced_spatial_features`),
keys in source order. -/
def spatialFeatures (sqrtO : ℚ → ℚ) (eigO : Sym3 → ℚ × ℚ × ℚ)
    (hullO : List (ℚ × ℚ × ℚ) → Option (ℚ × ℚ))
    (coords : List (ℚ × ℚ × ℚ)) : Option (List (String × ℚ)) := do
  let cx ← mean? (coords.map (·.1))
  let cy ← mean? (coords.map (·.2.1))
  let cz ← mean? (coords.map (·.2.2))
  let dists := coords.map fun p => norm3 sqrtO (p.1 - cx, p.2.1 - cy, p.2.2 - cz)
  let spread ← std? sqrtO dists
  let volume := enhancedVolume hullO coords
  let compactness := if 0 < spread then volume / (spread + 1/1000000) else 0
  let area := enhancedArea hullO coords
  let aspect ← aspectRatio eigO coords
  let radial ← radialCV sqrtO dists
  pure [("center_x", cx), ("center_y", cy), ("center_z", cz),
        ("spatial_spread", spread), ("volume", volume), ("compactness", compactness),
        ("surface_area", area), ("aspect_ratio", aspect), ("radial_distribution", radial)]

/-- Accumulator of the chemical-feature loop
(`_extract_enhanced_chemical_features`). -/
structure ChemAcc where
  hydrophobic : ℕ
  polar : ℕ
  aromatic : ℕ
  charged : ℕ
  mws : List ℚ
  logps : List ℚ
  psas : List ℚ
deriving DecidableEq, Repr

/-- One iteration of the chemical loop: a known probe updates the type
counters and appends its descriptors; an unknown probe appends only the
fixed defaults (50.0, 0.0, 20.0) and leaves every counter unchanged. -/
def chemStep (acc : ChemAcc) (probeName : String) : ChemAcc :=
  match probeProperties probeName with
  | some pp =>
    ⟨acc.hydrophobic + (if !pp.polar && !pp.aromatic then 1 else 0),
     acc.polar + (if pp.polar then 1 else 0),
     acc.aromatic + (if pp.aromatic then 1 else 0),
     acc.charged + (if pp.charged then 1 else 0),
     acc.mws ++ [pp.molecularWeight], acc.logps ++ [pp.logp], acc.psas ++ [pp.psa]⟩
  | none =>
    { acc with mws := acc.mws ++ [50], logps := acc.logps ++ [0], psas := acc.psas ++ [20] }

/-- The chemical accumulator after the whole loop. -/
def chemAccOf (probeNames : List String) : ChemAcc :=
  probeNames.foldl chemStep ⟨0, 0, 0, 0, [], [], []⟩

/-- The eight chemical features, keys in source order;
`probe_diversity` is the number of distinct probe names. -/
def chemicalFeatures (poses : List Pose) : Option (List (String × ℚ)) := do
  let names := poses.map (·.probe)
  let acc := chemAccOf names
  let mw ← mean? acc.mws
  let lp ← mean? acc.logps
  let ps ← mean? acc.psas
  pure [("probe_diversity", (names.dedup.length : ℚ)),
        ("hydrophobic_count", (acc.hydrophobic : ℚ)), ("polar_count", (acc.polar : ℚ)),
        ("aromatic_count", (acc.aromatic : ℚ)), ("charged_count", (acc.charged : ℚ)),
        ("molecular_weight_avg", mw), ("logp_avg", lp), ("polar_surface_area", ps)]

/-- Accumulator of the interaction-feature loop
(`_extract_enhanced_interaction_features`). -/
structure InterAcc where
  hbd : ℕ
  hba : ℕ
  vdw : ℚ
  electro : ℚ
  pistack : ℚ
  hydroSurf : ℚ
deriving DecidableEq, Repr

/-- One iteration of the interaction loop: a pose whose probe is missing
from the table is skipped entirely and contributes nothing. -/
def interStep (acc : InterAcc) (probeName : String) : InterAcc :=
  match probeProperties probeName with
  | some pp =>
    ⟨acc.hbd + pp.hbd, acc.hba + pp.hba,
     acc.vdw + pp.molecularWeight * (1/100),
     acc.electro + pp.dipole,
     acc.pistack + (if pp.aromatic then 1 else 0),
     acc.hydroSurf + (if !pp.polar && !pp.aromatic then pp.molecularWeight * (1/10) else 0)⟩
  | none => acc

/-- The interaction accumulator after the whole loop. -/
def interAccOf (poses : List Pose) : InterAcc :=
  poses.foldl (fun a p => interStep a p.probe) ⟨0, 0, 0, 0, 0, 0⟩

/-- The six interaction features, keys in source order; the per-pose
normalization divides by the full pose count (unknown probes included in
the denominator). -/
def interactionFeatures (poses : List Pose) : List (String × ℚ) :=
  let acc := interAccOf poses
  let n := poses.length
  let vdw := if 0 < n then acc.vdw / n else acc.vdw
  let hs := if 0 < n then acc.hydroSurf / n else acc.hydroSurf
  [("hydrogen_bond_donors", (acc.hbd : ℚ)), ("hydrogen_bond_acceptors", (acc.hba : ℚ)),
   ("vdw_interactions", vdw), ("electrostatic_potential", acc.electro),
   ("pi_stacking_potential", acc.pistack), ("hydrophobic_surface", hs)]

/-- The single consensus feature
(`_extract_enhanced_consensus_features`): cluster share of all poses. -/
def consensusFeatures (clusterSize nAll : ℕ) : List (String × ℚ) :=
  [("consensus_density", if nAll ≠ 0 then (clusterSize : ℚ) / nAll else 0)]

/-! ### ClusterFeatures construction and finalization
The `ClusterFeatures` dataclass re-annotates the six interaction fields
and `consensus_density`; a re-annotated name keeps its first position
and adds no new field, but the trailing block still contributes
`probe_agreement`, `energy_consensus`, `spatial_consensus`, `rmsd_mean`
and `pose_count`, so the generated constructor has 35 required
parameters.  `_extract_single_cluster_features` passes only 30 keyword
arguments. -/

/-- Field names of the `ClusterFeatures` dataclass, in declaration
order (35 distinct names). -/
def clusterFeaturesFields : List String :=
  ["cluster_id",
   "mean_affinity", "std_affinity", "min_affinity", "max_affinity", "energy_range",
   "center_x", "center_y", "center_z", "spatial_spread", "volume", "compactness",
   "surface_area", "aspect_ratio", "radial_distribution",
   "probe_diversity", "hydrophobic_count", "polar_count", "aromatic_count",
   "charged_count", "molecular_weight_avg", "logp_avg", "polar_surface_area",
   "hydrogen_bond_donors", "hydrogen_bond_acceptors", "vdw_interactions",
   "electrostatic_potential", "pi_stacking_potential", "hydrophobic_surface",
   "consensus_density", "probe_agreement", "energy_consensus", "spatial_consensus",
   "rmsd_mean", "pose_count"]

/-- Python keyword construction of the dataclass: `TypeError` (modelled
`Except.error`) when a required field is missing from the keyword
dictionary, else the instance as a field-order association list.  (Every
key the extractor passes is a declared field, so the unexpected-keyword
error cannot fire and is not modelled.) -/
def mkClusterFeatures (kwargs : List (String × ℚ)) : Except String (List (String × ℚ)) :=
  if clusterFeaturesFields.all (fun f => ((kwargs.lookup f).isSome : Bool)) then
    Except.ok (clusterFeaturesFields.map fun f => (f, (kwargs.lookup f).getD 0))
  else Except.error "TypeError: missing required positional arguments"

/-- Keys of `_features_to_dict` in source order: the cluster id plus the
29 feature fields (the first 30 dataclass fields, in the same order). -/
def featureDictKeys : List String :=
  ["cluster_id",
   "mean_affinity", "std_affinity", "min_affinity", "max_affinity", "energy_range",
   "center_x", "center_y", "center_z", "spatial_spread", "volume", "compactness",
   "surface_area", "aspect_ratio", "radial_distribution",
   "probe_diversity", "hydrophobic_count", "polar_count", "aromatic_count",
   "charged_count", "molecular_weight_avg", "logp_avg", "polar_surface_area",
   "hydrogen_bond_donors", "hydrogen_bond_acceptors", "vdw_interactions",
   "electrostatic_potential", "pi_stacking_potential", "hydrophobic_surface",
   "consensus_density"]

/-- The finalized per-cluster feature dictionary: the computed feature
entries assembled in the fixed `_features_to_dict` order (the id key
followed by the 29 features). -/
def clusterFeatureVector (sqrtO : ℚ → ℚ) (eigO : Sym3 → ℚ × ℚ × ℚ)
    (hullO : List (ℚ × ℚ × ℚ) → Option (ℚ × ℚ)) (clusterId : ℤ)
    (clusterPoses allPoses : List Pose) : Option (List (String × ℚ)) := do
  let ef ← energyFeatures sqrtO (clusterPoses.map (·.affinity))
  let sf ← spatialFeatures sqrtO eigO hullO (clusterPoses.map fun p => (p.x, p.y, p.z))
  let cf ← chemicalFeatures clusterPoses
  pure ((("cluster_id", (clusterId : ℚ)) :: ef) ++ sf ++ cf
    ++ interactionFeatures clusterPoses
    ++ consensusFeatures clusterPoses.length allPoses.length)

/-- Invariant carried through the merge loop: every working cluster is
nonempty and internally connected under `Adj`. -/
def ClustersConnected (Adj : ℕ → ℕ → Prop) (cs : List (List ℕ)) : Prop :=
  ∀ c ∈ cs, c ≠ [] ∧ ∀ x ∈ c, ∀ y ∈ c, Relation.ReflTransGen Adj x y

/-- The 30 keyword arguments `_extract_single_cluster_features` builds
(the `cluster_id` plus five unpacked feature dictionaries), fed to the
dataclass constructor.  The `none` branch models the NaN-poisoned dict
of an empty cluster (`np.mean` of an empty list), which real calls never
hit. -/
def extractSingleClusterFeatures (sqrtO : ℚ → ℚ) (eigO : Sym3 → ℚ × ℚ × ℚ)
    (hullO : List (ℚ × ℚ × ℚ) → Option (ℚ × ℚ)) (clusterId : ℤ)
    (clusterPoses allPoses : List Pose) : Except String (List (String × ℚ)) :=
  match clusterFeatureVector sqrtO eigO hullO clusterId clusterPoses allPoses with
  | some kwargs => mkClusterFeatures kwargs
  | none => Except.error "empty cluster"

/-! ### Claim-comparison definition for C9 -/

/-- Stated from the claim, for comparison with `interactionFeatures`:
the per-pose van-der-Waals accumulation if a pose with an unknown probe
substituted the documented default descriptor values (molecular weight
50.0) into the interaction sums instead of being skipped. -/
def vdwInteractionsClaimed (poses : List Pose) : ℚ :=
  let total := (poses.map fun p =>
    ((probeProperties p.probe).map ProbeProperties.molecularWeight).getD 50 * (1/100)).sum
  if 0 < poses.length then total / poses.length else total

/-! ### Cluster objects and the clustering interface
From `clustering_analysis.py`: `cluster_poses`, `_create_cluster_objects`,
`_calculate_cluster_center`, `_calculate_cluster_density`,
`_calculate_cluster_quality`.  The three base labelers are sklearn calls,
abstracted as the `alg` parameter; the mean and density divisions hit
nonempty member lists on every reachable call (each label kept comes from
an occurrence in the label vector), so they are written with plain
rational division. -/

/-- A cluster record (`Cluster` dataclass). -/
structure Cluster where
  clusterId : ℤ
  posesIndices : List ℕ
  center : ℚ × ℚ × ℚ
  size : ℕ
  density : ℚ
  avgAffinity : ℚ
  probeDiversity : ℕ
  qualityScore : ℚ
deriving DecidableEq, Repr

/-- Condensed pairwise distances (`scipy pdist`) through the
square-root oracle, in the usual ordered-pair order. -/
def pdistQ (sqrtO : ℚ → ℚ) (coords : List (ℚ × ℚ × ℚ)) : List ℚ :=
  (pairList coords.length).map fun ij =>
    let a := coords.getD ij.1 (0, 0, 0)
    let b := coords.getD ij.2 (0, 0, 0)
    norm3 sqrtO (a.1 - b.1, a.2.1 - b.2.1, a.2.2 - b.2.2)

/-- Cluster density (`_calculate_cluster_density`): 0 for fewer than two
poses, else the pose count over the mean pairwise distance plus 1e-6. -/
def clusterDensity (sqrtO : ℚ → ℚ) (poses : List Pose) : ℚ :=
  if poses.length < 2 then 0
  else
    let ds := pdistQ sqrtO (poses.map fun p => (p.x, p.y, p.z))
    let avg := ds.sum / ds.length
    (poses.length : ℚ) / (avg + 1/1000000)

/-- Cluster quality (`_calculate_cluster_quality`): 0.4 size + 0.4
energy + 0.2 probe diversity over the 18 configured probes. -/
def clusterQuality (poses : List Pose) : ℚ :=
  if poses.length = 0 then 0
  else
    let sizeScore := min ((poses.length : ℚ) / 10) 1
    let meanAff := (poses.map (·.affinity)).sum / poses.length
    let energyScore := 1 / (1 + |meanAff|)
    let divScore := ((poses.map (·.probe)).dedup.length : ℚ) / 18
    2/5 * sizeScore + 2/5 * energyScore + 1/5 * divScore

/-- One `Cluster` object for a non-noise label value: member indices in
ascending order, geometric center, size, density, mean affinity, probe
diversity and quality score. -/
def mkClusterObject (sqrtO : ℚ → ℚ) (poses : List Pose) (labels : List ℤ)
    (label : ℤ) : Cluster :=
  let idxs := (List.range labels.length).filter fun i => labels.getD i (-1) == label
  let cposes := idxs.map fun i => poses.getD i ⟨"", 0, 0, 0, 0, 0, 0⟩
  let n : ℚ := cposes.length
  { clusterId := label
    posesIndices := idxs
    center := ((cposes.map (·.x)).sum / n, (cposes.map (·.y)).sum / n,
               (cposes.map (·.z)).sum / n)
    size := cposes.length
    density := clusterDensity sqrtO cposes
    avgAffinity := (cposes.map (·.affinity)).sum / n
    probeDiversity := (cposes.map (·.probe)).dedup.length
    qualityScore := clusterQuality cposes }

/-- `_create_cluster_objects`: one object per distinct non-noise label
(Python iterates the label set in unspecified order; `dedup` stands in,
and the subsequent sort makes the outcome order-independent up to
quality ties), sorted by descending quality.  The stable sort is
modelled by insertion sort; the claims below do not depend on the order
of quality ties. -/
def createClusterObjects (sqrtO : ℚ → ℚ) (poses : List Pose) (labels : List ℤ) :
    List Cluster :=
  let uniq := labels.dedup.filter fun l => l ≠ -1
  (uniq.map (mkClusterObject sqrtO poses labels)).insertionSort
    fun a b => b.qualityScore ≤ a.qualityScore

/-- Top-level `cluster_poses`: fewer than 3 poses short-circuits to an
empty cluster list before method dispatch (so even an unknown method
name is tolerated there); otherwise the selected base labeler runs and
the built clusters are filtered by the configured minimum size after
the quality sort. -/
def clusterPoses (minSize : ℕ) (alg : String → List Pose → Except String (List ℤ))
    (sqrtO : ℚ → ℚ) (poses : List Pose) (method : String) :
    Except String (List Cluster) :=
  if poses.length < 3 then Except.ok []
  else if method = "dbscan" ∨ method = "hierarchical" ∨ method = "ensemble" then do
    let labels ← alg method poses
    Except.ok ((createClusterObjects sqrtO poses labels).filter fun c => minSize ≤ c.size)
  else Except.error ("Metodo de clustering desconhecido: " ++ method)

/-! ### Fixed-k hierarchical base algorithm
`_hierarchical_clustering` calls sklearn
`AgglomerativeClustering(n_clusters=10, linkage=ward)` with no size
guard.  sklearn's `fit` raises `ValueError("Cannot extract more clusters
than samples: ...")` whenever the sample count is below `n_clusters`;
the successful fit is the oracle `fitO`.  (The module then computes a
`silhouette_score` diagnostic, which can itself raise on degenerate
labelings; it is not modelled, and cannot rescue the small-input error
shown in the claims.) -/

/-- The fixed-k hierarchical base algorithm over the normalized feature
matrix.  The modular configuration fixes `nClusters` to 10. -/
def hierarchicalClustering (fitO : List (List ℚ) → List ℤ) (nClusters : ℕ)
    (features : List (List ℚ)) : Except String (List ℤ) :=
  if features.length < nClusters then
    Except.error "ValueError: Cannot extract more clusters than samples"
  else Except.ok (fitO features)

/-! ### Scale sampling and the final ensemble consensus
From `ftmap_enhanced_algorithm.py`, `_ensemble_clustering`
(lines 947-1029).  Above 10,000 poses the stage draws
`np.random.choice(n_samples, size=5000, replace=False)` from the global
NumPy RNG — `np.random.seed` is never called anywhere in the pipeline —
recurses on the sample, and propagates by nearest sampled position.
The recursion on the fixed 5,000-pose sample always lands in the
grid-voting middle branch (1000 ≤ 5000 ≤ 10000), inlined below.  For
fewer than 1,000 poses the stage builds the co-association matrix, but
`squareform` validates the derived `1 - co_association` distance matrix
and rejects its all-ones diagonal (the co-association diagonal is never
written), so the bare `except` falls back to returning the hierarchical
label set unchanged. -/

/-- Draw `k` elements without replacement from a pool, consuming raw RNG
draws from the stream `rng` left to right (position `t` onward); the
model of `np.random.choice(..., replace=False)` as a function of the
unseeded global RNG state.  Callers keep `k` at most the pool size, so
the modulus is never taken against an empty pool. -/
def drawPool (rng : ℕ → ℕ) : ℕ → List ℕ → ℕ → List ℕ
  | _, _, 0 => []
  | t, pool, k + 1 =>
    let i := rng t % pool.length
    pool.getD i 0 :: drawPool rng (t + 1) (pool.eraseIdx i) k

/-- Sample of `k` distinct indices out of `0, …, n-1` drawn from the RNG
stream. -/
def npChoiceNoReplace (rng : ℕ → ℕ) (n k : ℕ) : List ℕ :=
  drawPool rng 0 (List.range n) k

/-- Squared euclidean distance between positions. -/
def sqDist (a b : ℚ × ℚ × ℚ) : ℚ :=
  (a.1 - b.1) ^ 2 + (a.2.1 - b.2.1) ^ 2 + (a.2.2 - b.2.2) ^ 2

/-- Index of the nearest sampled position (first minimum wins, matching
the library's lowest-index tie rule). -/
def nearestIdx (sample : List (ℚ × ℚ × ℚ)) (p : ℚ × ℚ × ℚ) : ℕ :=
  (List.range sample.length).foldl
    (fun best t =>
      if sqDist (sample.getD t (0, 0, 0)) p < sqDist (sample.getD best (0, 0, 0)) p
      then t else best) 0

/-- Cell membership test of the voting grid: half-open on the upper
edges, so a pose sitting on the top boundary matches no cell. -/
def inCell (xl xr yl yr zl zr : ℚ) (p : ℚ × ℚ × ℚ) : Bool :=
  (xl ≤ p.1 && p.1 < xr) && (yl ≤ p.2.1 && p.2.1 < yr) && (zl ≤ p.2.2 && p.2.2 < zr)

/-- Edge `i` of the 20-point `linspace` over one axis. -/
def gridEdge (lo hi : ℚ) (i : ℕ) : ℚ := lo + i * ((hi - lo) / 19)

/-- Grid-voting branch of `_ensemble_clustering` (1,000 to 10,000
poses): every occupied cell of a 20³ grid over the bounding box gets the
next label, cells visited in lexicographic order; poses matching no cell
keep the initial label 0 (colliding with the first occupied cell).  The
base label sets are ignored by this branch. -/
def gridVoting (positions : List (ℚ × ℚ × ℚ)) : List ℤ :=
  let xlo := listMin (positions.map (·.1))
  let xhi := listMax (positions.map (·.1))
  let ylo := listMin (positions.map (·.2.1))
  let yhi := listMax (positions.map (·.2.1))
  let zlo := listMin (positions.map (·.2.2))
  let zhi := listMax (positions.map (·.2.2))
  let cells := (List.range 19).flatMap fun i =>
    (List.range 19).flatMap fun j => (List.range 19).map fun k => (i, j, k)
  (cells.foldl
    (fun (st : List ℤ × ℕ) c =>
      let mask := positions.map (inCell (gridEdge xlo xhi c.1) (gridEdge xlo xhi (c.1 + 1))
        (gridEdge ylo yhi c.2.1) (gridEdge ylo yhi (c.2.1 + 1))
        (gridEdge zlo zhi c.2.2) (gridEdge zlo zhi (c.2.2 + 1)))
      if mask.any id then
        ((List.range positions.length).map fun t =>
          if mask.getD t false then (st.2 : ℤ) else st.1.getD t 0, st.2 + 1)
      else st)
    (positions.map fun _ => (0 : ℤ), 0)).1

/-- Small-input branch of `_ensemble_clustering` (fewer than 1,000
poses): the `squareform` validation error sends the stage down the
`except` fallback, which returns the hierarchical label set unchanged. -/
def consensusSmall (hierLabels : List ℤ) : List ℤ := hierLabels

/-- Input record of the final ensemble consensus: the three base label
sets and the pose positions and energies. -/
structure EnsembleInput where
  hierLabels : List ℤ
  dbscanLabels : List ℤ
  energyLabels : List ℤ
  positions : List (ℚ × ℚ × ℚ)
  energies : List ℚ
deriving Repr

/-- The final algorithm's `_ensemble_clustering` as a function of the
RNG stream.  Above 10,000 poses: draw the 5,000-pose sample from the
unseeded global RNG, run the consensus on the sample (the grid-voting
branch), and give every pose the label of its nearest sampled position.
At or below 10,000 poses the RNG is never consulted. -/
def ensembleClustering (rng : ℕ → ℕ) (inp : EnsembleInput) : List ℤ :=
  let n := inp.positions.length
  if 10000 < n then
    let idx := npChoiceNoReplace rng n 5000
    let sp := idx.map fun t => inp.positions.getD t (0, 0, 0)
    let sl := gridVoting sp
    inp.positions.map fun p => sl.getD (nearestIdx sp p) 0
  else if n < 1000 then consensusSmall inp.hierLabels
  else gridVoting inp.positions

/-! ### Helper lemmas on the consensus matrix -/

/-- Co-labelling is a symmetric test: the equality test is symmetric and
under it the two noise tests agree. -/
theorem sharesLabel_symm (L : List ℤ) (i j : ℕ) :
    sharesLabel L i j = sharesLabel L j i := by
  unfold sharesLabel
  by_cases h : L.getD i (-1) = L.getD j (-1)
  · rw [h]
  · rw [beq_eq_false_iff_ne.mpr h, beq_eq_false_iff_ne.mpr (Ne.symm h)]
    simp

/-- The raw consensus matrix is symmetric. -/
theorem rawConsensus_symm (L₁ L₂ L₃ : List ℤ) (w₁ w₂ w₃ : ℚ) (i j : ℕ) :
    rawConsensus L₁ L₂ L₃ w₁ w₂ w₃ i j = rawConsensus L₁ L₂ L₃ w₁ w₂ w₃ j i := by
  unfold rawConsensus
  rw [sharesLabel_symm L₁, sharesLabel_symm L₂, sharesLabel_symm L₃]
  by_cases h : i = j
  · simp [h]
  · have h' : j ≠ i := fun hc => h hc.symm
    simp [h, h']

/-- The normalized consensus matrix is symmetric entrywise. -/
theorem consensusEntry_symm (L₁ L₂ L₃ : List ℤ) (w₁ w₂ w₃ : ℚ) (i j : ℕ) :
    consensusEntry L₁ L₂ L₃ w₁ w₂ w₃ i j = consensusEntry L₁ L₂ L₃ w₁ w₂ w₃ j i := by
  unfold consensusEntry
  rw [rawConsensus_symm]

/-- For non-negative weights the raw entry is between 0 and the weight
sum. -/
theorem rawConsensus_bounds (L₁ L₂ L₃ : List ℤ) {w₁ w₂ w₃ : ℚ}
    (h₁ : 0 ≤ w₁) (h₂ : 0 ≤ w₂) (h₃ : 0 ≤ w₃) (i j : ℕ) :
    0 ≤ rawConsensus L₁ L₂ L₃ w₁ w₂ w₃ i j ∧
      rawConsensus L₁ L₂ L₃ w₁ w₂ w₃ i j ≤ w₁ + w₂ + w₃ := by
  unfold rawConsensus
  split_ifs <;> constructor <;> linarith

/-- For non-negative weights with positive sum, every normalized entry
is defined (no NaN) and lies in the unit interval. -/
theorem consensusEntry_mem_unit (L₁ L₂ L₃ : List ℤ) {w₁ w₂ w₃ : ℚ}
    (h₁ : 0 ≤ w₁) (h₂ : 0 ≤ w₂) (h₃ : 0 ≤ w₃) (hs : 0 < w₁ + w₂ + w₃) (i j : ℕ) :
    ∃ q, consensusEntry L₁ L₂ L₃ w₁ w₂ w₃ i j = some q ∧ 0 ≤ q ∧ q ≤ 1 := by
  have hraw := rawConsensus_bounds L₁ L₂ L₃ h₁ h₂ h₃ i j
  refine ⟨rawConsensus L₁ L₂ L₃ w₁ w₂ w₃ i j / (w₁ + w₂ + w₃), ?_, ?_, ?_⟩
  · unfold consensusEntry
    rw [if_neg (ne_of_gt hs)]
  · exact div_nonneg hraw.1 (le_of_lt hs)
  · rw [div_le_one hs]
    exact hraw.2

/-! ### Claim C1 -/

/-- C1: the Ranker's category assignment.  The source writes `'Low'`
to the whole column, then `'High'` on rows with druggability at least
0.7, then `'Medium'` on rows with druggability at least 0.5; the last
write wins, so a cluster with druggability 0.8 — which the claim (and
the spec) say must be `'High'` and never `'Medium'` — is labelled
`'Medium'`.  (Consequently `'High'` is unreachable: any row matching
the 0.7 rule also matches the 0.5 rule.) -/
theorem clusterCategory_high_druggability_is_medium :
    ((7/10 : ℚ) ≤ 4/5 ∧ clusterCategory (4/5) = "Medium") ∧
    ∀ d : ℚ, clusterCategory d ≠ "High" := by
  refine ⟨⟨by norm_num, by norm_num [clusterCategory]⟩, ?_⟩
  intro d
  by_cases h5 : (1/2 : ℚ) ≤ d
  · simp only [clusterCategory, if_pos h5]
    decide
  · have h7 : ¬ (7/10 : ℚ) ≤ d := fun hc => h5 (le_trans (by norm_num) hc)
    simp only [clusterCategory, if_neg h5, if_neg h7]
    decide

/-! ### Claim C2 -/

/-- C2 counterexample: no `InputValidationError` exists anywhere in the
code — `FTMapConfig.__init__` performs no validation — so a weight
triple (0.5, 0.3, 0.3) whose sum is 1.1 is accepted, the consensus
matrix is built (entry (0,1) here is 1), and the consensus clustering
runs to completion, contradicting the claim that no consensus matrix is
ever built from such a triple. -/
theorem c2_unvalidated_weights_cluster_anyway :
    (1/2 + 3/10 + 3/10 : ℚ) ≠ 1 ∧
    consensusEntry [0, 0, 0] [0, 0, 0] [0, 0, 0] (1/2) (3/10) (3/10) 0 1 = some 1 ∧
    weightedConsensusClustering (1/2) (3/10) (3/10) (7/10)
      [0, 0, 0] [0, 0, 0] [0, 0, 0] = [0, 0, 0] := by
  refine ⟨by norm_num, ?_, ?_⟩
  · norm_num [consensusEntry, rawConsensus, sharesLabel]
  · norm_num [weightedConsensusClustering, labelsOfClusters, agglomerate, aggloLoop,
      bestPair, pairList, mergeAt, avgDist, consensusDist, consensusAdj, consensusEntry,
      rawConsensus, sharesLabel, List.range_succ]

/-- C2 amended: configuration never validates the weight triple; the
consensus stage runs with any non-negative triple of positive sum
(in particular (0.5, 0.3, 0.3)), normalizing by the actual weight sum,
and still produces entries in the unit interval. -/
theorem c2_amended_weights_accepted (L₁ L₂ L₃ : List ℤ) (i j : ℕ) :
    ∃ q, consensusEntry L₁ L₂ L₃ (1/2) (3/10) (3/10) i j = some q ∧ 0 ≤ q ∧ q ≤ 1 := by
  exact @consensusEntry_mem_unit L₁ L₂ L₃ (1/2) (3/10) (3/10)
    (by norm_num) (by norm_num) (by norm_num) (by norm_num) i j

/-! ### Claim C6 -/

/-- C6 counterexample: the weight triple (0, 0, 0) is non-negative, yet
`consensus_matrix /= sum(weights)` then divides 0 by 0, so every entry
is NaN (modelled `none`) — not a value in [0, 1]. -/
theorem c6_zero_weights_entry_undefined :
    consensusEntry [0, 0] [0, 0] [0, 0] 0 0 0 0 1 = none ∧
    ¬∃ q, consensusEntry [0, 0] [0, 0] [0, 0] 0 0 0 0 1 = some q ∧ 0 ≤ q ∧ q ≤ 1 := by
  refine ⟨by norm_num [consensusEntry], ?_⟩
  rintro ⟨q, hq, -⟩
  rw [show consensusEntry [0, 0] [0, 0] [0, 0] 0 0 0 0 1 = none by
    norm_num [consensusEntry]] at hq
  exact Option.noConfusion hq

/-- C6 amended: for every triple of label sets and every non-negative
weight triple whose sum is positive, the consensus matrix is symmetric
and every entry is defined and lies in [0, 1]. -/
theorem consensusMatrix_symm_unit (L₁ L₂ L₃ : List ℤ) (w₁ w₂ w₃ : ℚ)
    (h₁ : 0 ≤ w₁) (h₂ : 0 ≤ w₂) (h₃ : 0 ≤ w₃) (hs : 0 < w₁ + w₂ + w₃) (i j : ℕ) :
    consensusEntry L₁ L₂ L₃ w₁ w₂ w₃ i j = consensusEntry L₁ L₂ L₃ w₁ w₂ w₃ j i ∧
    ∃ q, consensusEntry L₁ L₂ L₃ w₁ w₂ w₃ i j = some q ∧ 0 ≤ q ∧ q ≤ 1 :=
  ⟨consensusEntry_symm L₁ L₂ L₃ w₁ w₂ w₃ i j,
   consensusEntry_mem_unit L₁ L₂ L₃ h₁ h₂ h₃ hs i j⟩

/-- C6 witness: the amended matrix invariants at the configured weights
(0.4, 0.3, 0.3) on a concrete label-set triple. -/
theorem consensusMatrix_symm_unit_witness :
    consensusEntry [0, 0, 1] [0, 1, 1] [0, 0, 0] (2/5) (3/10) (3/10) 0 1 =
      consensusEntry [0, 0, 1] [0, 1, 1] [0, 0, 0] (2/5) (3/10) (3/10) 1 0 ∧
    ∃ q, consensusEntry [0, 0, 1] [0, 1, 1] [0, 0, 0] (2/5) (3/10) (3/10) 0 1 = some q ∧
      0 ≤ q ∧ q ≤ 1 :=
  consensusMatrix_symm_unit [0, 0, 1] [0, 1, 1] [0, 0, 0] (2/5) (3/10) (3/10)
    (by norm_num) (by norm_num) (by norm_num) (by norm_num) 0 1

/-! ### Claim C3, counterexample -/

/-- C3 counterexample: with the configured weights (0.4, 0.3, 0.3) and
consensus threshold 0.7, take label sets [0,0,0], [0,0,1], [0,1,1].
Poses 1 and 2 have consensus entry 0.7, at the threshold — so they are
joined by a (length-one) path of entries at or above the threshold — yet
the final grouping separates them: the average-linkage merge of {0,1}
with {2} has distance 0.5, which sklearn does not apply.  Connected
components would have grouped all three poses together, so the claimed
"if and only if" fails.  (Under the other resolution of the tied first
merge the same failure appears at poses 0 and 1.) -/
theorem consensus_path_not_same_cluster :
    consensusEntry [0, 0, 0] [0, 0, 1] [0, 1, 1] (2/5) (3/10) (3/10) 1 2 = some (7/10) ∧
    consensusAdj [0, 0, 0] [0, 0, 1] [0, 1, 1] (2/5) (3/10) (3/10) (7/10) 1 2 = true ∧
    (weightedConsensusClustering (2/5) (3/10) (3/10) (7/10)
        [0, 0, 0] [0, 0, 1] [0, 1, 1]).getD 1 (-1) ≠
      (weightedConsensusClustering (2/5) (3/10) (3/10) (7/10)
        [0, 0, 0] [0, 0, 1] [0, 1, 1]).getD 2 (-1) := by
  have hrun : weightedConsensusClustering (2/5) (3/10) (3/10) (7/10)
      [0, 0, 0] [0, 0, 1] [0, 1, 1] = [0, 0, 1] := by
    norm_num [weightedConsensusClustering, labelsOfClusters, agglomerate, aggloLoop,
      bestPair, pairList, mergeAt, avgDist, consensusDist, consensusAdj, consensusEntry,
      rawConsensus, sharesLabel, List.range_succ]
  refine ⟨?_, ?_, ?_⟩
  · norm_num [consensusEntry, rawConsensus, sharesLabel]
  · norm_num [consensusAdj, consensusEntry, rawConsensus, sharesLabel]
  · rw [hrun]
    decide

/-! ### Claim C3, amended direction
The grouping the code produces is not connected components, but every
produced cluster is still connected inside the thresholded adjacency
graph: a merge is applied only when the average-linkage distance is
below the cut, and since the distances are 0/1 an average below 1 forces
at least one adjacent cross pair. -/

/-- Membership in `pairList`: exactly the ordered pairs below `n`. -/
theorem mem_pairList {n : ℕ} {i j : ℕ} : (i, j) ∈ pairList n ↔ i < j ∧ j < n := by
  constructor
  · intro h
    simp only [pairList, List.mem_flatMap, List.mem_map, List.mem_filter,
      List.mem_range, decide_eq_true_eq] at h
    obtain ⟨a, -, b, ⟨hbn, hab⟩, heq⟩ := h
    obtain ⟨rfl, rfl⟩ := Prod.mk.injEq .. ▸ heq
    exact ⟨hab, hbn⟩
  · rintro ⟨hij, hjn⟩
    simp only [pairList, List.mem_flatMap, List.mem_map, List.mem_filter,
      List.mem_range, decide_eq_true_eq]
    exact ⟨i, lt_trans hij hjn, j, ⟨hjn, hij⟩, rfl⟩

/-- Whatever `bestPair` returns is an ordered in-range position pair
together with its average-linkage distance. -/
theorem bestPair_mem {D : ℕ → ℕ → ℚ} {cs : List (List ℕ)} {i j : ℕ} {d : ℚ}
    (h : bestPair D cs = some ((i, j), d)) :
    i < j ∧ j < cs.length ∧ d = avgDist D (cs.getD i []) (cs.getD j []) := by
  have main : ∀ (l : List (ℕ × ℕ)) (acc : Option ((ℕ × ℕ) × ℚ)),
      (∀ x ∈ l, x ∈ pairList cs.length) →
      (∀ p q, acc = some (p, q) →
        p ∈ pairList cs.length ∧ q = avgDist D (cs.getD p.1 []) (cs.getD p.2 [])) →
      ∀ p q, l.foldl
          (fun acc p =>
            let d := avgDist D (cs.getD p.1 []) (cs.getD p.2 [])
            match acc with
            | none => some (p, d)
            | some (_, dq) => if d < dq then some (p, d) else acc) acc = some (p, q) →
        p ∈ pairList cs.length ∧ q = avgDist D (cs.getD p.1 []) (cs.getD p.2 []) := by
    intro l
    induction l with
    | nil => intro acc _ hacc p q hout; exact hacc p q hout
    | cons x xs ih =>
      intro acc hl hacc p q hout
      rw [List.foldl_cons] at hout
      refine ih _ (fun y hy => hl y (List.mem_cons_of_mem x hy)) ?_ p q hout
      intro p' q' hstep
      have hxmem : x ∈ pairList cs.length := hl x (List.mem_cons_self x xs)
      cases acc with
      | none =>
        dsimp only at hstep
        cases hstep
        exact ⟨hxmem, rfl⟩
      | some a =>
        obtain ⟨pa, qa⟩ := a
        dsimp only at hstep
        by_cases hlt : avgDist D (cs.getD x.1 []) (cs.getD x.2 []) < qa
        · rw [if_pos hlt] at hstep
          cases hstep
          exact ⟨hxmem, rfl⟩
        · rw [if_neg hlt] at hstep
          exact hacc p' q' hstep
  have hmain := main (pairList cs.length) none (fun y hy => hy)
    (by intro p q hq; cases hq) (i, j) d h
  obtain ⟨hmem, hval⟩ := hmain
  obtain ⟨hij, hjn⟩ := mem_pairList.mp hmem
  exact ⟨hij, hjn, hval⟩

/-- Every cluster in the merged list was already present or is the
concatenation of the two clusters at the merged positions. -/
theorem mem_mergeAt {cs : List (List ℕ)} {i j : ℕ} {c : List ℕ}
    (hc : c ∈ mergeAt cs i j) : c ∈ cs ∨ c = cs.getD i [] ++ cs.getD j [] := by
  unfold mergeAt at hc
  have h1 : c ∈ cs.set i (cs.getD i [] ++ cs.getD j []) :=
    ((cs.set i (cs.getD i [] ++ cs.getD j [])).eraseIdx_sublist j).mem hc
  exact List.mem_or_eq_of_mem_set h1

/-- Sum of a list mapped to a constant. -/
theorem sum_map_eq_card {α : Type} (f : α → ℚ) (c : ℚ) :
    ∀ l : List α, (∀ x ∈ l, f x = c) → (l.map f).sum = l.length * c
  | [], _ => by simp
  | x :: xs, h => by
    have hx := h x (List.mem_cons_self x xs)
    have hxs := sum_map_eq_card f c xs fun y hy => h y (List.mem_cons_of_mem x hy)
    simp [hx, hxs]
    ring

/-- If every cross distance is 1 the average-linkage distance is 1. -/
theorem avgDist_eq_one {D : ℕ → ℕ → ℚ} {A B : List ℕ} (hA : A ≠ []) (hB : B ≠ [])
    (hone : ∀ a ∈ A, ∀ b ∈ B, D a b = 1) : avgDist D A B = 1 := by
  unfold avgDist
  have hinner : ∀ a ∈ A, (B.map fun b => D a b).sum = (B.length : ℚ) := by
    intro a ha
    rw [sum_map_eq_card _ 1 B (hone a ha)]
    ring
  rw [sum_map_eq_card _ (B.length : ℚ) A hinner]
  have hA0 : (A.length : ℚ) ≠ 0 := Nat.cast_ne_zero.mpr (List.length_pos.mpr hA).ne'
  have hB0 : (B.length : ℚ) ≠ 0 := Nat.cast_ne_zero.mpr (List.length_pos.mpr hB).ne'
  field_simp

/-- An average-linkage distance below 1 between nonempty clusters whose
base distances are 1 off the adjacency relation forces an adjacent cross
pair. -/
theorem exists_adj_of_avgDist_lt_one {Adj : ℕ → ℕ → Prop} {D : ℕ → ℕ → ℚ}
    {A B : List ℕ} (hD : ∀ a b, ¬Adj a b → D a b = 1) (hA : A ≠ []) (hB : B ≠ [])
    (hlt : avgDist D A B < 1) : ∃ a ∈ A, ∃ b ∈ B, Adj a b := by
  by_contra hno
  push_neg at hno
  have h1 : avgDist D A B = 1 :=
    avgDist_eq_one hA hB fun a ha b hb => hD a b (hno a ha b hb)
  rw [h1] at hlt
  exact lt_irrefl _ hlt

/-- Merging the best pair preserves the connectivity invariant whenever
the accepted merge distance is below 1. -/
theorem clustersConnected_mergeAt {Adj : ℕ → ℕ → Prop} {D : ℕ → ℕ → ℚ}
    {cs : List (List ℕ)} {i j : ℕ} {d : ℚ}
    (hsym : ∀ a b, Adj a b → Adj b a)
    (hD : ∀ a b, ¬Adj a b → D a b = 1)
    (hconn : ClustersConnected Adj cs)
    (hb : bestPair D cs = some ((i, j), d)) (hd : d < 1) :
    ClustersConnected Adj (mergeAt cs i j) := by
  obtain ⟨hij, hjn, hdval⟩ := bestPair_mem hb
  have hin : i < cs.length := lt_trans hij hjn
  have hAmem : cs.getD i [] ∈ cs := by
    rw [List.getD_eq_getElem?_getD, List.getElem?_eq_getElem hin]
    exact List.getElem_mem hin
  have hBmem : cs.getD j [] ∈ cs := by
    rw [List.getD_eq_getElem?_getD, List.getElem?_eq_getElem hjn]
    exact List.getElem_mem hjn
  obtain ⟨hAne, hAconn⟩ := hconn _ hAmem
  obtain ⟨hBne, hBconn⟩ := hconn _ hBmem
  have hdlt : avgDist D (cs.getD i []) (cs.getD j []) < 1 := hdval ▸ hd
  obtain ⟨a, ha, b, hbmem, hadj⟩ := exists_adj_of_avgDist_lt_one hD hAne hBne hdlt
  intro c hc
  rcases mem_mergeAt hc with hold | hnew
  · exact hconn c hold
  · subst hnew
    refine ⟨fun hnil => hAne (List.append_eq_nil.mp hnil).1, ?_⟩
    intro x hx y hy
    have hxAB := List.mem_append.mp hx
    have hyAB := List.mem_append.mp hy
    have hab : Relation.ReflTransGen Adj a b := Relation.ReflTransGen.single hadj
    have hba : Relation.ReflTransGen Adj b a := Relation.ReflTransGen.single (hsym a b hadj)
    rcases hxAB with hxA | hxB <;> rcases hyAB with hyA | hyB
    · exact hAconn x hxA y hyA
    · exact ((hAconn x hxA a ha).trans hab).trans (hBconn b hbmem y hyB)
    · exact ((hBconn x hxB b hbmem).trans hba).trans (hAconn a ha y hyA)
    · exact hBconn x hxB y hyB

/-- Unfolding equation for one step of the merge loop. -/
theorem aggloLoop_succ (km : ℚ → Bool) (D : ℕ → ℕ → ℚ) (fuel : ℕ)
    (cs : List (List ℕ)) :
    aggloLoop km D (fuel + 1) cs =
      match bestPair D cs with
      | none => cs
      | some (p, d) => if km d then aggloLoop km D fuel (mergeAt cs p.1 p.2) else cs := rfl

/-- The merge loop preserves the connectivity invariant for any cut rule
that only accepts distances below 1. -/
theorem aggloLoop_connected {Adj : ℕ → ℕ → Prop} {D : ℕ → ℕ → ℚ} {km : ℚ → Bool}
    (hsym : ∀ a b, Adj a b → Adj b a)
    (hD : ∀ a b, ¬Adj a b → D a b = 1)
    (hkm : ∀ d, km d = true → d < 1) :
    ∀ (fuel : ℕ) (cs : List (List ℕ)), ClustersConnected Adj cs →
      ClustersConnected Adj (aggloLoop km D fuel cs) := by
  intro fuel
  induction fuel with
  | zero => intro cs h; exact h
  | succ n ih =>
    intro cs h
    rw [aggloLoop_succ]
    cases hbp : bestPair D cs with
    | none => exact h
    | some pd =>
      obtain ⟨⟨i, j⟩, d⟩ := pd
      dsimp only
      by_cases hk : km d = true
      · rw [if_pos hk]
        exact ih _ (clustersConnected_mergeAt hsym hD h hbp (hkm d hk))
      · rw [if_neg hk]
        exact h

/-- The initial singleton clustering is trivially connected. -/
theorem clustersConnected_init (Adj : ℕ → ℕ → Prop) (n : ℕ) :
    ClustersConnected Adj ((List.range n).map fun i => [i]) := by
  intro c hc
  simp only [List.mem_map, List.mem_range] at hc
  obtain ⟨i, -, rfl⟩ := hc
  refine ⟨by simp, ?_⟩
  intro x hx y hy
  simp only [List.mem_singleton] at hx hy
  subst hx; subst hy
  exact Relation.ReflTransGen.refl

/-- A successful `findIdx?` points at a list element satisfying the
predicate. -/
theorem findIdxQ_spec {α : Type} (p : α → Bool) (l : List α) (k : ℕ)
    (h : l.findIdx? p = some k) : ∃ x, l[k]? = some x ∧ p x = true := by
  obtain ⟨hk, hfi⟩ := List.findIdx?_eq_some_iff_findIdx_eq.mp h
  refine ⟨l[k], List.getElem?_eq_getElem hk, ?_⟩
  subst hfi
  exact List.findIdx_getElem

/-- The thresholded adjacency is symmetric, like the matrix itself. -/
theorem consensusAdj_symm (L₁ L₂ L₃ : List ℤ) (w₁ w₂ w₃ τ : ℚ) (i j : ℕ) :
    consensusAdj L₁ L₂ L₃ w₁ w₂ w₃ τ i j = consensusAdj L₁ L₂ L₃ w₁ w₂ w₃ τ j i := by
  unfold consensusAdj
  rw [consensusEntry_symm]

/-- Reading the label vector at an in-range pose gives the position of
its cluster in the final cluster list, or `-1` if it lies in none. -/
theorem labelsOfClusters_getD {cs : List (List ℕ)} {n p : ℕ} (hp : p < n) :
    (labelsOfClusters cs n).getD p (-1) =
      match cs.findIdx? (fun c => c.contains p) with
      | some k => (k : ℤ)
      | none => -1 := by
  unfold labelsOfClusters
  rw [List.getD_eq_getElem?_getD, List.getElem?_map, List.getElem?_range hp]
  rfl

/-- Label of a pose whose cluster is found at position `k`. -/
theorem labelsOfClusters_getD_some {cs : List (List ℕ)} {n p k : ℕ} (hp : p < n)
    (h : cs.findIdx? (fun c => c.contains p) = some k) :
    (labelsOfClusters cs n).getD p (-1) = (k : ℤ) := by
  rw [labelsOfClusters_getD hp, h]

/-- Label of a pose contained in no cluster. -/
theorem labelsOfClusters_getD_none {cs : List (List ℕ)} {n p : ℕ} (hp : p < n)
    (h : cs.findIdx? (fun c => c.contains p) = none) :
    (labelsOfClusters cs n).getD p (-1) = -1 := by
  rw [labelsOfClusters_getD hp, h]

/-- C3 amended: the final grouping is not produced by union-find over
the thresholded consensus graph but by average-linkage agglomerative
merging at cut 0.5 on it (`n_clusters=None, distance_threshold=0.5,
linkage='average', metric='precomputed'`), followed by the
minimum-size filter in `cluster_poses`.  Of the claimed equivalence only
one direction survives, proved here: any two poses placed in the same
final (non-noise) cluster are joined by a path of pairwise consensus
entries at or above the threshold.  The converse fails — see the
counterexample theorem. -/
theorem sameCluster_implies_consensus_path (w₁ w₂ w₃ τ : ℚ) (L₁ L₂ L₃ : List ℤ)
    (i j : ℕ) (hi : i < L₁.length) (hj : j < L₁.length)
    (hnoise : (weightedConsensusClustering w₁ w₂ w₃ τ L₁ L₂ L₃).getD i (-1) ≠ -1)
    (hsame : (weightedConsensusClustering w₁ w₂ w₃ τ L₁ L₂ L₃).getD i (-1) =
             (weightedConsensusClustering w₁ w₂ w₃ τ L₁ L₂ L₃).getD j (-1)) :
    Relation.ReflTransGen (fun a b => consensusAdj L₁ L₂ L₃ w₁ w₂ w₃ τ a b = true) i j := by
  have hconn : ClustersConnected (fun a b => consensusAdj L₁ L₂ L₃ w₁ w₂ w₃ τ a b = true)
      (agglomerate (fun d => d < 1/2) (consensusDist L₁ L₂ L₃ w₁ w₂ w₃ τ) L₁.length) := by
    apply aggloLoop_connected
    · intro a b hab
      rw [consensusAdj_symm] at hab
      exact hab
    · intro a b hnab
      rw [Bool.not_eq_true] at hnab
      unfold consensusDist
      rw [hnab]
      norm_num
    · intro d hd
      rw [decide_eq_true_eq] at hd
      linarith
    · exact clustersConnected_init _ _
  rw [weightedConsensusClustering] at hnoise hsame
  cases hfi : (agglomerate (fun d => d < 1/2)
      (consensusDist L₁ L₂ L₃ w₁ w₂ w₃ τ) L₁.length).findIdx? (fun c => c.contains i) with
  | none =>
    rw [labelsOfClusters_getD_none hi hfi] at hnoise
    exact absurd rfl hnoise
  | some k₁ =>
    rw [labelsOfClusters_getD_some hi hfi] at hsame
    cases hfj : (agglomerate (fun d => d < 1/2)
        (consensusDist L₁ L₂ L₃ w₁ w₂ w₃ τ) L₁.length).findIdx? (fun c => c.contains j) with
    | none =>
      rw [labelsOfClusters_getD_none hj hfj] at hsame
      exact absurd hsame (by omega)
    | some k₂ =>
      rw [labelsOfClusters_getD_some hj hfj] at hsame
      have hkk : k₁ = k₂ := Int.ofNat_inj.mp hsame
      subst hkk
      obtain ⟨c, hc, hci⟩ := findIdxQ_spec _ _ _ hfi
      obtain ⟨c', hc', hcj⟩ := findIdxQ_spec _ _ _ hfj
      rw [hc] at hc'
      cases hc'
      have hcmem := List.getElem?_mem hc
      obtain ⟨-, hpath⟩ := hconn c hcmem
      exact hpath i (List.mem_of_elem_eq_true hci) j (List.mem_of_elem_eq_true hcj)

/-! ### Feature-extraction lemmas -/

/-- The five energy features exist with fixed keys for a nonempty
affinity list. -/
theorem energyFeatures_some (sqrtO : ℚ → ℚ) {aff : List ℚ} (h : aff ≠ []) :
    ∃ v, energyFeatures sqrtO aff = some v ∧
      v.map Prod.fst =
        ["mean_affinity", "std_affinity", "min_affinity", "max_affinity", "energy_range"] := by
  obtain ⟨a, as, rfl⟩ := List.exists_cons_of_ne_nil h
  simp only [energyFeatures, mean?, var?, std?, List.min?, List.max?, List.length_cons,
    List.length_map, Nat.succ_ne_zero, if_false, List.map_cons, Option.bind_eq_bind,
    Option.some_bind, Option.map_some']
  exact ⟨_, rfl, rfl⟩

/-- The nine spatial features exist with fixed keys for a nonempty
coordinate list, for every oracle. -/
theorem spatialFeatures_some (sqrtO : ℚ → ℚ) (eigO : Sym3 → ℚ × ℚ × ℚ)
    (hullO : List (ℚ × ℚ × ℚ) → Option (ℚ × ℚ)) {coords : List (ℚ × ℚ × ℚ)}
    (h : coords ≠ []) :
    ∃ v, spatialFeatures sqrtO eigO hullO coords = some v ∧
      v.map Prod.fst = ["center_x", "center_y", "center_z", "spatial_spread", "volume",
        "compactness", "surface_area", "aspect_ratio", "radial_distribution"] := by
  obtain ⟨a, as, rfl⟩ := List.exists_cons_of_ne_nil h
  cases as with
  | nil =>
    simp only [spatialFeatures, aspectRatio, radialCV, mean?, var?, std?, List.map_cons,
      List.map_nil, List.length_cons, List.length_nil, List.length_map, Nat.succ_ne_zero,
      if_false, Option.bind_eq_bind, Option.some_bind, Option.map_some']
    norm_num
  | cons b bs =>
    have hlen2 : ¬ ((a :: b :: bs).length < 2) := by
      simp only [List.length_cons]
      omega
    have hlen1 : ¬ ((a :: b :: bs).length ≤ 1) := by
      simp only [List.length_cons]
      omega
    simp only [spatialFeatures, aspectRatio, radialCV, covMatrix, mean?, var?, std?,
      List.map_cons, List.length_cons, List.length_map, Nat.succ_ne_zero, if_false,
      if_neg hlen2, if_neg hlen1, Option.bind_eq_bind, Option.some_bind, Option.map_some']
    exact ⟨_, rfl, rfl⟩

/-- The molecular-weight list the chemical loop accumulates is the
per-pose table lookup with the documented default 50.0 for unknown
probes. -/
theorem chemAcc_mws (names : List String) :
    ∀ acc : ChemAcc, (names.foldl chemStep acc).mws = acc.mws ++
      names.map fun nm =>
        ((probeProperties nm).map ProbeProperties.molecularWeight).getD 50 := by
  induction names with
  | nil => intro acc; simp
  | cons nm rest ih =>
    intro acc
    rw [List.foldl_cons, ih]
    cases hpp : probeProperties nm with
    | some pp => simp [chemStep, hpp]
    | none => simp [chemStep, hpp]

/-- The log-P list accumulates the lookup with default 0.0. -/
theorem chemAcc_logps (names : List String) :
    ∀ acc : ChemAcc, (names.foldl chemStep acc).logps = acc.logps ++
      names.map fun nm => ((probeProperties nm).map ProbeProperties.logp).getD 0 := by
  induction names with
  | nil => intro acc; simp
  | cons nm rest ih =>
    intro acc
    rw [List.foldl_cons, ih]
    cases hpp : probeProperties nm with
    | some pp => simp [chemStep, hpp]
    | none => simp [chemStep, hpp]

/-- The polar-surface-area list accumulates the lookup with default
20.0. -/
theorem chemAcc_psas (names : List String) :
    ∀ acc : ChemAcc, (names.foldl chemStep acc).psas = acc.psas ++
      names.map fun nm => ((probeProperties nm).map ProbeProperties.psa).getD 20 := by
  induction names with
  | nil => intro acc; simp
  | cons nm rest ih =>
    intro acc
    rw [List.foldl_cons, ih]
    cases hpp : probeProperties nm with
    | some pp => simp [chemStep, hpp]
    | none => simp [chemStep, hpp]

/-- The eight chemical features exist with fixed keys for a nonempty
pose list: every pose, known probe or not, contributes one entry to each
averaged list. -/
theorem chemicalFeatures_some {poses : List Pose} (h : poses ≠ []) :
    ∃ v, chemicalFeatures poses = some v ∧
      v.map Prod.fst = ["probe_diversity", "hydrophobic_count", "polar_count",
        "aromatic_count", "charged_count", "molecular_weight_avg", "logp_avg",
        "polar_surface_area"] := by
  have hne : poses.length ≠ 0 := fun hc => h (List.length_eq_zero.mp hc)
  have hmw : (chemAccOf (poses.map (·.probe))).mws.length = poses.length := by
    rw [chemAccOf, chemAcc_mws]
    simp
  have hlp : (chemAccOf (poses.map (·.probe))).logps.length = poses.length := by
    rw [chemAccOf, chemAcc_logps]
    simp
  have hps : (chemAccOf (poses.map (·.probe))).psas.length = poses.length := by
    rw [chemAccOf, chemAcc_psas]
    simp
  simp only [chemicalFeatures, mean?, hmw, hlp, hps, hne, if_false, Option.bind_eq_bind,
    Option.some_bind]
  exact ⟨_, rfl, rfl⟩

/-- The assembled feature dictionary exists for every nonempty cluster
and every oracle, and its keys are exactly the 30 fixed
`_features_to_dict` keys in order. -/
theorem clusterFeatureVector_some (sqrtO : ℚ → ℚ) (eigO : Sym3 → ℚ × ℚ × ℚ)
    (hullO : List (ℚ × ℚ × ℚ) → Option (ℚ × ℚ)) (cid : ℤ)
    {clusterPoses : List Pose} (allPoses : List Pose) (h : clusterPoses ≠ []) :
    ∃ v, clusterFeatureVector sqrtO eigO hullO cid clusterPoses allPoses = some v ∧
      v.map Prod.fst = featureDictKeys := by
  have hmap : clusterPoses.map (·.affinity) ≠ [] := by
    intro hc
    exact h (List.map_eq_nil_iff.mp hc)
  have hmap2 : (clusterPoses.map fun p => (p.x, p.y, p.z)) ≠ [] := by
    intro hc
    exact h (List.map_eq_nil_iff.mp hc)
  obtain ⟨ef, hef, hefk⟩ := energyFeatures_some sqrtO hmap
  obtain ⟨sf, hsf, hsfk⟩ := spatialFeatures_some sqrtO eigO hullO hmap2
  obtain ⟨cf, hcf, hcfk⟩ := chemicalFeatures_some h
  refine ⟨(("cluster_id", (cid : ℚ)) :: ef) ++ sf ++ cf
      ++ interactionFeatures clusterPoses
      ++ consensusFeatures clusterPoses.length allPoses.length, ?_, ?_⟩
  · rw [clusterFeatureVector, hef]
    rw [Option.bind_eq_bind, Option.some_bind, hsf, Option.some_bind, hcf, Option.some_bind]
    rfl
  · simp only [List.map_append, List.map_cons, hefk, hsfk, hcfk, interactionFeatures,
      consensusFeatures, featureDictKeys]
    rfl

/-- A key absent from the association list looks up to `none`. -/
theorem lookup_eq_none_of_not_mem_keys {l : List (String × ℚ)} {k : String}
    (h : k ∉ l.map Prod.fst) : l.lookup k = none := by
  induction l with
  | nil => rfl
  | cons x xs ih =>
    simp only [List.map_cons, List.mem_cons, not_or] at h
    rw [List.lookup_cons]
    rw [beq_eq_false_iff_ne.mpr h.1]
    exact ih h.2

/-- Keyword construction of `ClusterFeatures` fails whenever the
`probe_agreement` field is missing from the keyword dictionary. -/
theorem mkClusterFeatures_error {kwargs : List (String × ℚ)}
    (h : kwargs.lookup "probe_agreement" = none) :
    mkClusterFeatures kwargs =
      Except.error "TypeError: missing required positional arguments" := by
  unfold mkClusterFeatures
  rw [if_neg]
  intro hall
  rw [List.all_eq_true] at hall
  have hpa := hall "probe_agreement" (by simp [clusterFeaturesFields])
  rw [h] at hpa
  simp at hpa

/-- The van-der-Waals sum the interaction loop accumulates ranges only
over the poses whose probe is present in the table. -/
theorem interAcc_vdw (poses : List Pose) :
    ∀ acc : InterAcc, (poses.foldl (fun a p => interStep a p.probe) acc).vdw = acc.vdw +
      ((poses.filter fun p => (probeProperties p.probe).isSome).map
        (fun p => ((probeProperties p.probe).map ProbeProperties.molecularWeight).getD 0
          * (1/100))).sum := by
  induction poses with
  | nil => intro acc; simp
  | cons p rest ih =>
    intro acc
    rw [List.foldl_cons, ih]
    cases hpp : probeProperties p.probe with
    | some pp =>
      simp only [List.filter_cons, hpp, Option.isSome_some, if_true, List.map_cons,
        List.sum_cons, interStep, Option.map_some', Option.getD_some]
      ring
    | none =>
      simp only [List.filter_cons, hpp, Option.isSome_none, Bool.false_eq_true, if_false,
        interStep]

/-! ### Claim C7 -/

/-- C7: the FeatureExtractor cannot be idempotent because it never
produces a vector at all: the duplicated dataclass annotations leave
`ClusterFeatures` with 35 required constructor parameters
(`probe_agreement`, `energy_consensus`, `spatial_consensus`,
`rmsd_mean`, `pose_count` beyond the 30 computed ones), while
`_extract_single_cluster_features` passes only 30 keyword arguments, so
construction raises `TypeError` for every nonempty cluster and every
oracle value. -/
theorem extractSingleClusterFeatures_always_raises (sqrtO : ℚ → ℚ)
    (eigO : Sym3 → ℚ × ℚ × ℚ) (hullO : List (ℚ × ℚ × ℚ) → Option (ℚ × ℚ)) (cid : ℤ)
    {clusterPoses : List Pose} (allPoses : List Pose) (h : clusterPoses ≠ []) :
    extractSingleClusterFeatures sqrtO eigO hullO cid clusterPoses allPoses =
      Except.error "TypeError: missing required positional arguments" := by
  obtain ⟨v, hv, hk⟩ := clusterFeatureVector_some sqrtO eigO hullO cid allPoses h
  have hred : extractSingleClusterFeatures sqrtO eigO hullO cid clusterPoses allPoses =
      mkClusterFeatures v := by
    unfold extractSingleClusterFeatures
    rw [hv]
  rw [hred]
  apply mkClusterFeatures_error
  apply lookup_eq_none_of_not_mem_keys
  rw [hk]
  simp [featureDictKeys]

/-- C7 witness: the `TypeError` at a concrete one-pose cluster. -/
theorem extractSingleClusterFeatures_always_raises_witness :
    extractSingleClusterFeatures (fun _ => 0) (fun _ => (0, 0, 0)) (fun _ => none) 0
      [⟨"ethanol", 0, 0, 0, -5, 0, 0⟩] [⟨"ethanol", 0, 0, 0, -5, 0, 0⟩] =
      Except.error "TypeError: missing required positional arguments" :=
  extractSingleClusterFeatures_always_raises _ _ _ _ _ (List.cons_ne_nil _ _)

/-! ### Claim C8 -/

/-- C8: for every surviving cluster (nonempty member list), every oracle
value and every cluster id, the finalized feature dictionary is defined
— every guarded division goes through, so no NaN/Inf (`none`) escapes —
and consists of the cluster id key followed by exactly 29 feature
entries whose names and order are fixed and never vary with the input. -/
theorem clusterFeatureVector_29_fields (sqrtO : ℚ → ℚ) (eigO : Sym3 → ℚ × ℚ × ℚ)
    (hullO : List (ℚ × ℚ × ℚ) → Option (ℚ × ℚ)) (cid : ℤ)
    {clusterPoses : List Pose} (allPoses : List Pose) (h : clusterPoses ≠ []) :
    ∃ v, clusterFeatureVector sqrtO eigO hullO cid clusterPoses allPoses = some v ∧
      v.map Prod.fst = featureDictKeys ∧ (featureDictKeys.drop 1).length = 29 := by
  obtain ⟨v, hv, hk⟩ := clusterFeatureVector_some sqrtO eigO hullO cid allPoses h
  exact ⟨v, hv, hk, rfl⟩

/-- C8 witness: the 29-plus-id format at a concrete one-pose cluster. -/
theorem clusterFeatureVector_29_fields_witness :
    ∃ v, clusterFeatureVector (fun _ => 0) (fun _ => (0, 0, 0)) (fun _ => none) 0
      [⟨"ethanol", 0, 0, 0, -5, 0, 0⟩] [⟨"ethanol", 0, 0, 0, -5, 0, 0⟩] = some v ∧
      v.map Prod.fst = featureDictKeys ∧ (featureDictKeys.drop 1).length = 29 :=
  clusterFeatureVector_29_fields _ _ _ _ _ (List.cons_ne_nil _ _)

/-! ### Claim C9 -/

/-- C9 counterexample: a one-pose cluster whose probe "unknown" is
absent from the table.  The code's van-der-Waals entry is 0 — the
interaction loop skips the pose — whereas substituting the documented
default descriptor values into every feature computation, as the claim
asserts, would give 50.0 × 0.01 = 0.5. -/
theorem unknownProbe_not_defaulted_in_interactions :
    probeProperties "unknown" = none ∧
    (interactionFeatures [⟨"unknown", 0, 0, 0, -5, 0, 0⟩]).lookup "vdw_interactions" =
      some 0 ∧
    vdwInteractionsClaimed [⟨"unknown", 0, 0, 0, -5, 0, 0⟩] = 1/2 ∧
    ((0 : ℚ) ≠ 1/2) := by
  have hnone : probeProperties "unknown" = none := by
    simp [probeProperties, probeTable]
  refine ⟨hnone, ?_, ?_, by norm_num⟩
  · simp [interactionFeatures, interAccOf, interStep, hnone, List.lookup]
  · simp [vdwInteractionsClaimed, hnone]
    norm_num

/-- C9 amended: an unknown probe never raises; it contributes the
documented fixed defaults (molecular weight 50.0, logP 0.0, polar
surface area 20.0) to each chemical averaging list, so every pose
contributes there — but the interaction sums skip unknown probes
entirely, contributing nothing (shown for the van-der-Waals sum), while
the per-pose normalization still divides by the full pose count. -/
theorem unknownProbe_defaults_and_skips (poses : List Pose) :
    (chemAccOf (poses.map (·.probe))).mws = poses.map
      (fun p => ((probeProperties p.probe).map ProbeProperties.molecularWeight).getD 50) ∧
    (chemAccOf (poses.map (·.probe))).logps = poses.map
      (fun p => ((probeProperties p.probe).map ProbeProperties.logp).getD 0) ∧
    (chemAccOf (poses.map (·.probe))).psas = poses.map
      (fun p => ((probeProperties p.probe).map ProbeProperties.psa).getD 20) ∧
    (interAccOf poses).vdw =
      ((poses.filter fun p => (probeProperties p.probe).isSome).map
        (fun p => ((probeProperties p.probe).map ProbeProperties.molecularWeight).getD 0
          * (1/100))).sum := by
  refine ⟨?_, ?_, ?_, ?_⟩
  · rw [chemAccOf, chemAcc_mws]
    simp [List.map_map]
  · rw [chemAccOf, chemAcc_logps]
    simp [List.map_map]
  · rw [chemAccOf, chemAcc_psas]
    simp [List.map_map]
  · rw [interAccOf, interAcc_vdw]
    simp

/-! ### Claim C3 witness -/

/-- C3 witness: the surviving direction at a concrete run — all three
label sets agree, poses 0 and 1 end in the same final cluster, and a
consensus path joins them. -/
theorem sameCluster_implies_consensus_path_witness :
    Relation.ReflTransGen
      (fun a b =>
        consensusAdj [0, 0, 0] [0, 0, 0] [0, 0, 0] (2/5) (3/10) (3/10) (7/10) a b = true)
      0 1 := by
  have hrun : weightedConsensusClustering (2/5) (3/10) (3/10) (7/10)
      [0, 0, 0] [0, 0, 0] [0, 0, 0] = [0, 0, 0] := by
    norm_num [weightedConsensusClustering, labelsOfClusters, agglomerate, aggloLoop,
      bestPair, pairList, mergeAt, avgDist, consensusDist, consensusAdj, consensusEntry,
      rawConsensus, sharesLabel, List.range_succ]
  exact sameCluster_implies_consensus_path (2/5) (3/10) (3/10) (7/10)
    [0, 0, 0] [0, 0, 0] [0, 0, 0] 0 1 (by norm_num) (by norm_num)
    (by rw [hrun]; decide) (by rw [hrun]; rfl)

/-! ### Claim C4 -/

/-- C4 counterexample: a 3-row feature matrix — enough poses that
`cluster_poses` does not short-circuit, yet fewer rows than the
configured fixed target of 10 clusters — makes the hierarchical base
algorithm raise sklearn's `ValueError` instead of returning an
all-noise label set. -/
theorem hierarchical_small_input_raises :
    hierarchicalClustering (fun _ => []) 10 [[0], [0], [0]] =
      Except.error "ValueError: Cannot extract more clusters than samples" ∧
    hierarchicalClustering (fun _ => []) 10 [[0], [0], [0]] ≠
      Except.ok [-1, -1, -1] := by
  constructor
  · simp [hierarchicalClustering]
  · simp [hierarchicalClustering]

/-- C4 amended: the small-input tolerance lives one level up and takes a
different form: for fewer than 3 poses, `cluster_poses` returns an empty
cluster list without raising — for every labeler and even an unknown
method name — while between 3 and 9 poses the fixed-k hierarchical base
algorithm itself raises rather than returning all-noise (see the
counterexample). -/
theorem clusterPoses_small_input_ok (minSize : ℕ)
    (alg : String → List Pose → Except String (List ℤ)) (sqrtO : ℚ → ℚ)
    (poses : List Pose) (method : String) (h : poses.length < 3) :
    clusterPoses minSize alg sqrtO poses method = Except.ok [] := by
  unfold clusterPoses
  rw [if_pos h]

/-- C4 witness: one pose and an unrecognized method name still return
the empty cluster list successfully. -/
theorem clusterPoses_small_input_ok_witness :
    clusterPoses 5 (fun _ _ => Except.ok []) (fun _ => 0)
      [⟨"ethanol", 0, 0, 0, -5, 0, 0⟩] "mystery" = Except.ok [] :=
  clusterPoses_small_input_ok 5 _ _ _ _ (by simp)

/-! ### Claim C5 -/

/-- Unfolding of one sampling draw. -/
theorem drawPool_succ (rng : ℕ → ℕ) (t : ℕ) (pool : List ℕ) (k : ℕ) :
    drawPool rng t pool (k + 1) =
      pool.getD (rng t % pool.length) 0 ::
        drawPool rng (t + 1) (pool.eraseIdx (rng t % pool.length)) k := rfl

/-- Reading `List.range` at an in-range position. -/
theorem range_getD {n i : ℕ} (h : i < n) : (List.range n).getD i 0 = i := by
  rw [List.getD_eq_getElem?_getD, List.getElem?_range h]
  rfl

/-- C5 counterexample: the sample draw of the scale path is not seeded —
no `np.random.seed` call exists anywhere in the pipeline — so the drawn
index set is a nontrivial function of the ambient RNG state: two states
a run may encounter (first raw draw 0, respectively 1) yield different
samples at 10,001 poses, refuting the claim that the draw is "seeded and
therefore reproducible across runs". -/
theorem scaleSampler_draw_depends_on_rng :
    10000 < 10001 ∧
    npChoiceNoReplace (fun _ => 0) 10001 5000 ≠
      npChoiceNoReplace (fun _ => 1) 10001 5000 := by
  refine ⟨by norm_num, ?_⟩
  have h5000 : (5000 : ℕ) = 4999 + 1 := by norm_num
  have h0 : npChoiceNoReplace (fun _ => 0) 10001 5000 =
      0 :: drawPool (fun _ => 0) 1 ((List.range 10001).eraseIdx 0) 4999 := by
    rw [npChoiceNoReplace, h5000, drawPool_succ]
    norm_num [List.length_range]
  have h1 : npChoiceNoReplace (fun _ => 1) 10001 5000 =
      1 :: drawPool (fun _ => 1) 1 ((List.range 10001).eraseIdx 1) 4999 := by
    rw [npChoiceNoReplace, h5000, drawPool_succ]
    norm_num [List.length_range]
  intro heq
  rw [h0, h1] at heq
  injection heq with hhead _
  exact absurd hhead (by norm_num)

/-- C5 amended: the consensus-extraction stage consumes no randomness
beyond the sample draw — its output depends on the RNG stream only
through the drawn index set, and not at all for at most 10,000 poses,
where the stage is deterministic — but that draw is unseeded, so the
grouping above the threshold is not reproducible across runs. -/
theorem ensembleClustering_rng_only_via_sample (rng rng' : ℕ → ℕ)
    (inp : EnsembleInput)
    (h : npChoiceNoReplace rng inp.positions.length 5000 =
         npChoiceNoReplace rng' inp.positions.length 5000) :
    ensembleClustering rng inp = ensembleClustering rng' inp := by
  unfold ensembleClustering
  by_cases h1 : 10000 < inp.positions.length
  · rw [if_pos h1, if_pos h1, h]
  · rw [if_neg h1, if_neg h1]

/-- C5 witness: the congruence at a concrete small input. -/
theorem ensembleClustering_rng_only_via_sample_witness :
    ensembleClustering (fun _ => 0) ⟨[0], [0], [0], [(0, 0, 0)], [0]⟩ =
      ensembleClustering (fun _ => 0) ⟨[0], [0], [0], [(0, 0, 0)], [0]⟩ :=
  ensembleClustering_rng_only_via_sample _ _ _ rfl

/-! ### Claim C10 -/

/-- C10: every cluster returned by `cluster_poses` has at least the
configured minimum size, a cluster id different from the noise sentinel
-1, and a pose-index list whose length equals its size field; and the
returned list is sorted by non-increasing quality score.  Holds for
every base labeler, method name, minimum size and square-root oracle. -/
theorem clusterPoses_invariants (minSize : ℕ)
    (alg : String → List Pose → Except String (List ℤ)) (sqrtO : ℚ → ℚ)
    (poses : List Pose) (method : String) (cs : List Cluster)
    (h : clusterPoses minSize alg sqrtO poses method = Except.ok cs) :
    (∀ c ∈ cs, minSize ≤ c.size ∧ c.clusterId ≠ -1 ∧
      c.posesIndices.length = c.size) ∧
    cs.Pairwise (fun a b => b.qualityScore ≤ a.qualityScore) := by
  unfold clusterPoses at h
  by_cases h3 : poses.length < 3
  · rw [if_pos h3] at h
    cases h
    exact ⟨fun c hc => absurd hc (List.not_mem_nil c), List.Pairwise.nil⟩
  · rw [if_neg h3] at h
    by_cases hm : method = "dbscan" ∨ method = "hierarchical" ∨ method = "ensemble"
    · rw [if_pos hm] at h
      cases halg : alg method poses with
      | error e =>
        rw [halg] at h
        exact absurd h (by simp [Bind.bind, Except.bind])
      | ok labels =>
        rw [halg] at h
        have hcs : cs = (createClusterObjects sqrtO poses labels).filter
            fun c => minSize ≤ c.size := by
          have h' : Except.ok ((createClusterObjects sqrtO poses labels).filter
              fun c => minSize ≤ c.size) = (Except.ok cs : Except String (List Cluster)) := h
          exact (Except.ok.injEq _ _ ▸ h').symm
        subst hcs
        constructor
        · intro c hc
          have hmem := List.mem_filter.mp hc
          have hsize : minSize ≤ c.size := by
            have := hmem.2
            exact of_decide_eq_true this
          have hsort := hmem.1
          rw [createClusterObjects] at hsort
          have hperm := List.perm_insertionSort
            (fun a b => b.qualityScore ≤ a.qualityScore)
            ((labels.dedup.filter fun l => l ≠ -1).map
              (mkClusterObject sqrtO poses labels))
          have hmap : c ∈ (labels.dedup.filter fun l => l ≠ -1).map
              (mkClusterObject sqrtO poses labels) := hperm.mem_iff.mp hsort
          obtain ⟨label, hlabel, rfl⟩ := List.mem_map.mp hmap
          have hlne : label ≠ -1 := by
            have := (List.mem_filter.mp hlabel).2
            exact of_decide_eq_true this
          refine ⟨hsize, hlne, ?_⟩
          simp [mkClusterObject]
        · have htot : IsTotal Cluster (fun a b => b.qualityScore ≤ a.qualityScore) :=
            ⟨fun a b => le_total _ _⟩
          have htrans : IsTrans Cluster (fun a b => b.qualityScore ≤ a.qualityScore) :=
            ⟨fun a b c hab hbc => le_trans hbc hab⟩
          have hsorted := @List.sorted_insertionSort Cluster
            (fun a b => b.qualityScore ≤ a.qualityScore) _ htot htrans
            ((labels.dedup.filter fun l => l ≠ -1).map
              (mkClusterObject sqrtO poses labels))
          rw [createClusterObjects]
          exact List.Pairwise.filter _ hsorted
    · rw [if_neg hm] at h
      exact absurd h (by simp)

/-- C10 witness: a concrete run with three identical poses labelled into
one cluster of size three. -/
theorem clusterPoses_invariants_witness :
    (∀ c ∈ [(⟨0, [0, 1, 2], (0, 0, 0), 3, 3000000, 0, 1, 239/450⟩ : Cluster)],
      3 ≤ c.size ∧ c.clusterId ≠ -1 ∧ c.posesIndices.length = c.size) ∧
    List.Pairwise (fun (a b : Cluster) => b.qualityScore ≤ a.qualityScore)
      [(⟨0, [0, 1, 2], (0, 0, 0), 3, 3000000, 0, 1, 239/450⟩ : Cluster)] := by
  refine clusterPoses_invariants 3 (fun _ _ => Except.ok [0, 0, 0]) (fun _ => 0)
    [⟨"ethanol", 0, 0, 0, 0, 0, 0⟩, ⟨"ethanol", 0, 0, 0, 0, 0, 0⟩,
     ⟨"ethanol", 0, 0, 0, 0, 0, 0⟩] "ensemble" _ ?_
  norm_num [clusterPoses, createClusterObjects, mkClusterObject, clusterDensity,
    clusterQuality, pdistQ, pairList, norm3, List.range_succ, List.dedup,
    List.insertionSort, List.orderedInsert, Bind.bind, Except.bind, List.filter]

end FTMap
